import Mathlib

/-
Verification of the reaction-sensitivity analysis pipeline
(biomass/analysis/reaction/sensitivity.py).

Floating-point values are modelled as `F`: either NaN or an exact rational.
Infinities do not arise on the verified paths (all divisions are guarded by
the source), so they are not modelled. Stateful NumPy code is embedded as
explicit state passing; the external simulator and metric extractor
(`self.sim.simulate` + `get_signaling_metric`) are an oracle parameter.
-/

namespace Biomass

/-- A floating-point cell value: NaN or a finite (rational) number. -/
inductive F where
  | nan : F
  | val : ℚ → F
deriving DecidableEq

/-- np.isnan on one cell. -/
def F.isNaN : F → Bool
  | F.nan => true
  | F.val _ => false

/-- Floating-point division as used by `_remove_nan`.  Every call site in the
source guards the divisor to be a nonzero finite number (or the neutral 1), so
the divisor-zero branch is unreachable there; the model collapses it to nan. -/
def F.div : F → F → F
  | F.nan, _ => F.nan
  | F.val _, F.nan => F.nan
  | F.val a, F.val b => if b = 0 then F.nan else F.val (a / b)

/-- `any(np.isnan(row))`: does the row contain a NaN? -/
def rowHasNaN (row : List F) : Bool :=
  row.any F.isNaN

/-- `np.nanmax(np.abs(row))`: maximum of the absolute values of the non-NaN
entries (a fold of pairwise fmax, which drops NaNs); NaN when every entry is
NaN.  (NumPy raises on an empty row; the sliced matrices here always have at
least one column, the model returns nan.) -/
def nanmaxAbs (row : List F) : F :=
  match row.filterMap fun x => match x with
        | F.nan => none
        | F.val q => some |q| with
  | [] => F.nan
  | q :: qs => F.val (qs.foldl max q)

/-- The in-place per-row update performed by the `i` loop of `_remove_nan`:
a row whose max absolute value is exactly 0.0 is overwritten with zeros;
otherwise the row is divided elementwise by its nanmax-abs when `normalize`
is set, else by 1. -/
def processRow (normalize : Bool) (row : List F) : List F :=
  if nanmaxAbs row = F.val 0 then
    List.replicate row.length (F.val 0)
  else
    row.map (fun x => F.div x (if normalize then nanmaxAbs row else F.val 1))

/-- `_remove_nan(sensitivity_matrix, normalize)` as a state transformer.
First component: the matrix object after the loop (the argument is a NumPy
view, mutated in place row by row).  Second component: the returned array,
`np.delete(mutated, nan_idx, axis=0)` where `nan_idx` collects (before the
row is overwritten) every row index whose original row contains a NaN. -/
def remove_nan_run (m : List (List F)) (normalize : Bool) :
    List (List F) × List (List F) :=
  (m.map (processRow normalize),
   m.filterMap (fun row =>
     if rowHasNaN row then none else some (processRow normalize row)))

/-- The value returned by `_remove_nan`. -/
def remove_nan (m : List (List F)) (normalize : Bool) : List (List F) :=
  (remove_nan_run m normalize).2

/-! ### The perturbation dictionary (Python dict semantics) -/

/-- `d[k] = v` on a Python dict: overwrite the value of an existing key in
place, otherwise append the new binding at the end (insertion order). -/
def dictInsert : List (ℕ × ℚ) → ℕ → ℚ → List (ℕ × ℚ)
  | [], k, v => [(k, v)]
  | (k0, v0) :: rest, k, v =>
    if k0 = k then (k, v) :: rest else (k0, v0) :: dictInsert rest k v

/-- `d[k]` on the assoc-list dict: the value of the first (hence only)
binding of `k`. -/
def dictLookup : List (ℕ × ℚ) → ℕ → Option ℚ
  | [], _ => none
  | (k0, v0) :: rest, k => if k0 = k then some v0 else dictLookup rest k

/-- Fixed perturbation ratio, `rate = 1.01` (a 1% change). -/
def rate : ℚ := 101 / 100

/-- Lines 55-58: `perturbation = {}`; `for idx in reaction_indices:
perturbation[idx] = 1`; `perturbation[rxn_idx] = rate`.  Built afresh for
every (parameter set, reaction) iteration. -/
def buildPerturbation (reaction_indices : List ℕ) (rxn_idx : ℕ) :
    List (ℕ × ℚ) :=
  dictInsert (reaction_indices.foldl (fun d idx => dictInsert d idx 1) [])
    rxn_idx rate

/-! ### The signaling-metric tensor and the perturbation sweep -/

/-- The 4-D signaling-metric array, as a total function on indices
[parameter-set, reaction slot, observable, condition]; cells outside the
declared shape are never written and stay at the initial NaN. -/
abbrev Tensor4 := ℕ → ℕ → ℕ → ℕ → F

/-- One element assignment `t[i, j, k, l] = v`. -/
def upd4 (t : Tensor4) (i j k l : ℕ) (v : F) : Tensor4 :=
  fun a b c d => if a = i ∧ b = j ∧ c = k ∧ d = l then v else t a b c d

/-- The inner `for l, _ in enumerate(self.sim.conditions)` loop writing one
observable row of cell (i, j). -/
def writeRow (t : Tensor4) (i j k : ℕ) (vals : ℕ → ℕ → F) (nCond : ℕ) :
    Tensor4 :=
  (List.range nCond).foldl (fun t2 l => upd4 t2 i j k l (vals k l)) t

/-- The double `for k ... for l ...` loop storing the extracted metrics of one
successful simulation into slot (i, j) of the tensor. -/
def writeCells (t : Tensor4) (i j : ℕ) (vals : ℕ → ℕ → F) (nObs nCond : ℕ) :
    Tensor4 :=
  (List.range nObs).foldl (fun t1 k => writeRow t1 i j k vals nCond) t

/-- Inputs of `_calc_sensitivity_coefficients`.  `simResult p pm` abstracts
one call `self.sim.simulate(x, y0, perturbation)` for parameter set `p`
(`pm = none` is the unperturbed call `simulate(x, y0)`), composed with metric
extraction: `some vals` means the simulation succeeded (Python returns None)
and `vals k l = get_signaling_metric(metric, sim.simulations[k, :, l])`;
`none` means the simulation failed, so nothing is written. -/
structure SweepEnv where
  n_file : List ℕ
  reaction_indices : List ℕ
  nObs : ℕ
  nCond : ℕ
  simResult : ℕ → Option (List (ℕ × ℚ)) → Option (ℕ → ℕ → F)

/-- Body of the `for j, rxn_idx in enumerate(reaction_indices)` loop for
parameter set `p` sitting at row `i`: build a fresh perturbation dict, run the
simulator, and on success store the metrics in slot `j`.  (The `sys.stdout`
progress write is a side effect with no influence on the tensor.) -/
def perturbStep (env : SweepEnv) (i p : ℕ) (t : Tensor4) (jr : ℕ × ℕ) :
    Tensor4 :=
  match env.simResult p (some (buildPerturbation env.reaction_indices jr.2)) with
  | some vals => writeCells t i jr.1 vals env.nObs env.nCond
  | none => t

/-- One iteration of the outer `for i, nth_paramset in enumerate(n_file)`
loop: the perturbed runs for every reaction, then the unperturbed run stored
in the tensor slot `-1`, i.e. slot `len(reaction_indices)`. -/
def sweepParamset (env : SweepEnv) (t : Tensor4) (i p : ℕ) : Tensor4 :=
  let t1 := (env.reaction_indices.enum).foldl (perturbStep env i p) t
  match env.simResult p none with
  | some vals =>
    writeCells t1 i env.reaction_indices.length vals env.nObs env.nCond
  | none => t1

/-- Lines 44-78: the signaling-metric tensor produced by the sweep, starting
from `np.full(..., np.nan)`. -/
def signalingMetric (env : SweepEnv) : Tensor4 :=
  (env.n_file.enum).foldl (fun t ip => sweepParamset env t ip.1 ip.2)
    (fun _ _ _ _ => F.nan)

/-! ### The log-log sensitivity coefficient -/

/-- Modelled from the spec: the per-cell policy of `dlnyi_dlnxj` (imported
from `biomass.analysis`; its source file is not among the sources).  Spec
4.3 step 5: if either metric is NaN the coefficient is NaN; if baseline and
perturbed are both exactly zero the coefficient is 0; if the baseline is zero
and the perturbed metric nonzero the coefficient is NaN; otherwise
`ln(perturbed / baseline) / ln(rate)`.  The real logarithm is abstracted as a
function parameter `ln` standing for `np.log`. -/
def scCell (ln : ℚ → ℚ) (rate0 : ℚ) (baseline perturbed : F) : F :=
  match baseline, perturbed with
  | F.nan, _ => F.nan
  | F.val _, F.nan => F.nan
  | F.val b, F.val p =>
    if b = 0 ∧ p = 0 then F.val 0
    else if b = 0 then F.nan
    else F.val (ln (p / b) / ln rate0)

/-- Modelled from the spec: `dlnyi_dlnxj(signaling_metric, n_file,
reaction_indices, obs, conditions, rate)` — the sensitivity-coefficient
tensor of shape [paramset, reaction, observable, condition], whose (i,j,k,l)
cell combines the perturbed metric at slot j with the baseline metric at the
last reaction slot. -/
def dlnyi_dlnxj (ln : ℚ → ℚ) (metricT : Tensor4)
    (nFile nRis nObs nCond : ℕ) (rate0 : ℚ) : Tensor4 :=
  fun i j k l =>
    if i < nFile ∧ j < nRis ∧ k < nObs ∧ l < nCond then
      scCell ln rate0 (metricT i nRis k l) (metricT i j k l)
    else F.nan

/-- `_calc_sensitivity_coefficients(metric, reaction_indices)`: run the sweep
and derive the coefficient tensor with the fixed `rate = 1.01`. -/
def calc_sensitivity_coefficients (ln : ℚ → ℚ) (env : SweepEnv) : Tensor4 :=
  dlnyi_dlnxj ln (signalingMetric env) env.n_file.length
    env.reaction_indices.length env.nObs env.nCond rate

/-! ### The result cache -/

/-- `_load_sc(metric, reaction_indices)` as a transformer of the on-disk
state, a map from file path to stored tensor.  `np.save` / `np.load` are
external collaborators; modelled from the spec: the persisted artifact
round-trips exactly (NaN markers included).  Returns the tensor, the new disk
state, and how many times the sensitivity-coefficient computation ran. -/
def load_sc (model_path metric : String) (ln : ℚ → ℚ) (env : SweepEnv)
    (disk : String → Option Tensor4) :
    Tensor4 × (String → Option Tensor4) × ℕ :=
  let path :=
    model_path ++ "/sensitivity_coefficients/reaction/" ++ metric ++ "/sc.npy"
  match disk path with
  | some t => (t, disk, 0)
  | none =>
    let t := calc_sensitivity_coefficients ln env
    (t, fun q => if q = path then some t else disk q, 1)

/-! ### Aggregation in `_barplot_sensitivity` (lines 181-188) -/

/-- `np.mean(rows, axis=0)` at column `c` for a cleaned (NaN-free) matrix. -/
def np_mean_axis0 (rows : List (List ℚ)) (c : ℕ) : ℚ :=
  ((rows.map (fun r => r.getD c 0)).sum) / (rows.length : ℚ)

/-- `np.std(rows, axis=0, ddof=d)` at column `c`: the square root of the sum
of squared deviations from the column mean divided by `n - ddof`; NaN when
that divisor is zero (the 0/0 NumPy would produce).  `sqrtQ` abstracts
`np.sqrt`. -/
def np_std_axis0 (sqrtQ : ℚ → ℚ) (ddof : ℕ) (rows : List (List ℚ)) (c : ℕ) :
    F :=
  let n : ℚ := rows.length
  let mu := np_mean_axis0 rows c
  if n - (ddof : ℚ) = 0 then F.nan
  else
    F.val (sqrtQ (((rows.map (fun r => (r.getD c 0 - mu) ^ 2)).sum) /
      (n - (ddof : ℚ))))

/-- The summary statistics computed by `_barplot_sensitivity` on the cleaned
matrix: `average = np.mean(axis=0)`, and `stdev` is all zeros when exactly
one parameter-set row survived, else `np.std(axis=0, ddof=1)`. -/
def summarize (sqrtQ : ℚ → ℚ) (rows : List (List ℚ)) :
    (ℕ → ℚ) × (ℕ → F) :=
  (np_mean_axis0 rows,
   if rows.length = 1 then fun _ => F.val 0 else np_std_axis0 sqrtQ 1 rows)

/-! ### Reaction indices in `analyze` (lines 288-291) -/

/-- Columnwise sums of a rectangular nested list (NumPy 2-D sum along
axis 0). -/
def colSums : List (List ℕ) → List ℕ
  | [] => []
  | g :: gs => gs.foldl (fun acc h => List.zipWith (fun x y => x + y) acc h) g

/-- Do all inner lists share one length (so that NumPy sees a rectangular
2-D array rather than a 1-D object array of Python lists)? -/
def allSameLength (gs : List (List ℕ)) : Bool :=
  gs.all (fun g => g.length = (gs.headD []).length)

/-- `np.sum(nested, axis=0)`: when every inner list has the same length NumPy
builds a 2-D integer array and sums the columns; otherwise the nested list
becomes a 1-D object array of Python lists and summing folds `+` over them,
i.e. concatenates. -/
def np_sum_axis0 (gs : List (List ℕ)) : List ℕ :=
  if allSameLength gs then colSums gs else gs.flatten

/-- Line 290 of `analyze`: `reaction_indices =
np.sum(biological_processes, axis=0)`. -/
def analyze_reaction_indices (biological_processes : List (List ℕ)) :
    List ℕ :=
  np_sum_axis0 biological_processes

/-! ### The heatmap cleaning step (lines 259-264) -/

/-- The 2-D NumPy view `sensitivity_coefficients[:, :, k, l]` materialized as
a [parameter-set, reaction] matrix. -/
def slice2 (t : Tensor4) (nP nR k l : ℕ) : List (List F) :=
  (List.range nP).map (fun i => (List.range nR).map (fun j => t i j k l))

/-- Writing a mutated 2-D slice back at (k, l): what the in-place row
assignments of `_remove_nan` do to the underlying tensor through the view. -/
def writeSlice (t : Tensor4) (k l : ℕ) (m : List (List F)) : Tensor4 :=
  fun a b c d =>
    if c = k ∧ d = l then (m.getD a []).getD b (t a b c d) else t a b c d

/-- One (observable, condition) iteration of `_heatmap_sensitivity`:
`sensitivity_matrix = self._remove_nan(sensitivity_coefficients[:, :, k, l],
normalize=False)`.  Because the slice is a view, the in-place writes of
`_remove_nan` land in the coefficient tensor; the cleaned return value is the
separate `np.delete` copy. -/
def heatmapCleanStep (t : Tensor4) (nP nR k l : ℕ) :
    Tensor4 × List (List F) :=
  let mr := remove_nan_run (slice2 t nP nR k l) false
  (writeSlice t k l mr.1, mr.2)

/-! ### Pointwise characterization of the sweep -/

/-- What one perturbed run may write into cell (c, d) of its slot: `some` iff
the simulation for reaction `r` of parameter set `p` succeeded and (c, d) is
inside the observable/condition grid. -/
def cellWrite (env : SweepEnv) (p r c d : ℕ) : Option F :=
  match env.simResult p (some (buildPerturbation env.reaction_indices r)) with
  | some vals => if c < env.nObs ∧ d < env.nCond then some (vals c d) else none
  | none => none

/-- What the unperturbed run may write into cell (c, d) of the baseline
slot. -/
def baseWrite (env : SweepEnv) (p c d : ℕ) : Option F :=
  match env.simResult p none with
  | some vals => if c < env.nObs ∧ d < env.nCond then some (vals c d) else none
  | none => none

/-- The value parameter set `p` contributes at reaction slot `b`, cell
(c, d): the baseline write at the extra slot, the perturbed write of the b-th
reaction below it, nothing elsewhere. -/
def paramEntry (env : SweepEnv) (p b c d : ℕ) : Option F :=
  if b = env.reaction_indices.length then baseWrite env p c d
  else
    match env.reaction_indices[b]? with
    | some r => cellWrite env p r c d
    | none => none

/-- The element of `xs` whose `enumFrom n` index is `m`, if any. -/
def enumTarget {α : Type} (xs : List α) (n m : ℕ) : Option α :=
  if n ≤ m then xs[m - n]? else none

theorem upd4_apply (t : Tensor4) (i j k l : ℕ) (v : F) (a b c d : ℕ) :
    upd4 t i j k l v a b c d =
      if a = i ∧ b = j ∧ c = k ∧ d = l then v else t a b c d := rfl

theorem writeRow_apply (t : Tensor4) (i j k : ℕ) (vals : ℕ → ℕ → F) (n : ℕ)
    (a b c d : ℕ) :
    writeRow t i j k vals n a b c d =
      if a = i ∧ b = j ∧ c = k ∧ d < n then vals k d else t a b c d := by
  induction n with
  | zero => simp [writeRow]
  | succ m ih =>
    have h : writeRow t i j k vals (m + 1) =
        upd4 (writeRow t i j k vals m) i j k m (vals k m) := by
      unfold writeRow
      rw [List.range_succ, List.foldl_append]
      rfl
    rw [h, upd4_apply, ih]
    by_cases h1 : a = i ∧ b = j ∧ c = k
    · obtain ⟨ha, hb, hc⟩ := h1
      subst ha; subst hb; subst hc
      by_cases h2 : d = m
      · subst h2; simp
      · by_cases h3 : d < m
        · simp [h2, h3, Nat.lt_succ_of_lt h3]
        · have h4 : ¬ d < m + 1 := by omega
          simp [h2, h3, h4]
    · have h2 : ¬ (a = i ∧ b = j ∧ c = k ∧ d = m) := fun h => h1 ⟨h.1, h.2.1, h.2.2.1⟩
      have h3 : ¬ (a = i ∧ b = j ∧ c = k ∧ d < m) := fun h => h1 ⟨h.1, h.2.1, h.2.2.1⟩
      have h4 : ¬ (a = i ∧ b = j ∧ c = k ∧ d < m + 1) :=
        fun h => h1 ⟨h.1, h.2.1, h.2.2.1⟩
      simp [h2, h3, h4]

theorem writeCells_apply (t : Tensor4) (i j : ℕ) (vals : ℕ → ℕ → F)
    (nObs nCond : ℕ) (a b c d : ℕ) :
    writeCells t i j vals nObs nCond a b c d =
      if a = i ∧ b = j ∧ c < nObs ∧ d < nCond then vals c d
      else t a b c d := by
  induction nObs with
  | zero => simp [writeCells]
  | succ m ih =>
    have h : writeCells t i j vals (m + 1) nCond =
        writeRow (writeCells t i j vals m nCond) i j m vals nCond := by
      unfold writeCells
      rw [List.range_succ, List.foldl_append]
      rfl
    rw [h, writeRow_apply, ih]
    by_cases h1 : a = i ∧ b = j ∧ d < nCond
    · obtain ⟨ha, hb, hd⟩ := h1
      subst ha; subst hb
      by_cases h2 : c = m
      · subst h2; simp [hd]
      · by_cases h3 : c < m
        · simp [h2, h3, hd, Nat.lt_succ_of_lt h3]
        · have h4 : ¬ c < m + 1 := by omega
          simp [h2, h3, h4, hd]
    · have h2 : ¬ (a = i ∧ b = j ∧ c = m ∧ d < nCond) := by tauto
      have h3 : ¬ (a = i ∧ b = j ∧ c < m ∧ d < nCond) := by tauto
      have h4 : ¬ (a = i ∧ b = j ∧ c < m + 1 ∧ d < nCond) := by tauto
      simp [h2, h3, h4]

/-- Folding a step function over an index-enumerated list, when iteration
`(j, x)` touches the inspected cell only for `j = m` and then deposits
`e x`: the final cell value comes from the iteration indexed `m`, if any. -/
theorem foldl_enumFrom_char {α : Type} (s : Tensor4 → ℕ × α → Tensor4)
    (e : α → Option F) (a b c d m : ℕ)
    (hs : ∀ (t : Tensor4) (j : ℕ) (x : α),
      s t (j, x) a b c d =
        if m = j then (e x).getD (t a b c d) else t a b c d) :
    ∀ (xs : List α) (n : ℕ) (t : Tensor4),
      (List.foldl s t (xs.enumFrom n)) a b c d =
        (enumTarget xs n m).elim (t a b c d)
          (fun x => (e x).getD (t a b c d)) := by
  intro xs
  induction xs with
  | nil =>
    intro n t
    simp [List.enumFrom, enumTarget]
  | cons x xs ih =>
    intro n t
    have henum : (x :: xs).enumFrom n = (n, x) :: xs.enumFrom (n + 1) := by
      simp [List.enumFrom]
    rw [henum, List.foldl_cons, ih, hs]
    rcases Nat.lt_trichotomy m n with hlt | heq | hgt
    · have h1 : enumTarget xs (n + 1) m = none := by
        simp [enumTarget]; omega
      have h2 : enumTarget (x :: xs) n m = none := by
        simp [enumTarget]; omega
      have h3 : m ≠ n := by omega
      simp [h1, h2, h3]
    · subst heq
      have h1 : enumTarget xs (m + 1) m = none := by
        simp [enumTarget]
      have h2 : enumTarget (x :: xs) m m = some x := by
        simp [enumTarget]
      simp [h1, h2]
    · have h3 : m ≠ n := by omega
      have h1 : enumTarget xs (n + 1) m = xs[m - n - 1]? := by
        simp only [enumTarget]
        rw [if_pos (by omega)]
        have hmn : m - (n + 1) = m - n - 1 := by omega
        rw [hmn]
      have h2 : enumTarget (x :: xs) n m = xs[m - n - 1]? := by
        simp only [enumTarget]
        rw [if_pos (by omega)]
        obtain ⟨k, hk⟩ : ∃ k, m - n = k + 1 := ⟨m - n - 1, by omega⟩
        rw [hk, List.getElem?_cons_succ]
        simp
      rw [h1, h2]
      simp [h3]

theorem perturbStep_apply (env : SweepEnv) (i p : ℕ) (t : Tensor4)
    (j r : ℕ) (a b c d : ℕ) :
    perturbStep env i p t (j, r) a b c d =
      if b = j then
        ((if a = i then cellWrite env p r c d else none)).getD (t a b c d)
      else t a b c d := by
  unfold perturbStep cellWrite
  cases hsim :
      env.simResult p (some (buildPerturbation env.reaction_indices r)) with
  | none => simp
  | some vals =>
    dsimp only
    rw [writeCells_apply]
    by_cases hb : b = j
    · subst hb
      by_cases ha : a = i
      · subst ha
        by_cases hr : c < env.nObs ∧ d < env.nCond
        · simp [hr]
        · simp [hr]
      · simp [ha]
    · simp [hb]

theorem sweepParamset_apply (env : SweepEnv) (t : Tensor4) (i p : ℕ)
    (a b c d : ℕ) :
    sweepParamset env t i p a b c d =
      if a = i then (paramEntry env p b c d).getD (t a b c d)
      else t a b c d := by
  unfold sweepParamset
  have hloop :
      ((env.reaction_indices.enum).foldl (perturbStep env i p) t) a b c d =
        (enumTarget env.reaction_indices 0 b).elim (t a b c d)
          (fun r => ((if a = i then cellWrite env p r c d else none)).getD
            (t a b c d)) := by
    have := foldl_enumFrom_char (perturbStep env i p)
      (fun r => if a = i then cellWrite env p r c d else none) a b c d b
      (fun t0 j r => perturbStep_apply env i p t0 j r a b c d)
      env.reaction_indices 0 t
    exact this
  have htarget : enumTarget env.reaction_indices 0 b =
      env.reaction_indices[b]? := by
    simp [enumTarget]
  cases hbase : env.simResult p none with
  | none =>
    simp only [hbase]
    rw [hloop, htarget]
    by_cases hb : b = env.reaction_indices.length
    · subst hb
      have hnone : env.reaction_indices[env.reaction_indices.length]? = none := by
        simp
      simp [hnone, paramEntry, baseWrite, hbase]
    · simp only [paramEntry, if_neg hb, baseWrite]
      cases hget : env.reaction_indices[b]? with
      | none => simp
      | some r =>
        by_cases ha : a = i
        · simp [ha]
        · simp [ha]
  | some vals =>
    simp only [hbase]
    rw [writeCells_apply, hloop, htarget]
    by_cases hb : b = env.reaction_indices.length
    · subst hb
      have hnone : env.reaction_indices[env.reaction_indices.length]? = none := by
        simp
      simp only [hnone, Option.elim]
      by_cases ha : a = i
      · subst ha
        by_cases hr : c < env.nObs ∧ d < env.nCond
        · simp [hr, paramEntry, baseWrite, hbase]
        · simp [hr, paramEntry, baseWrite, hbase]
      · simp [ha]
    · have hne : ¬ (a = i ∧ b = env.reaction_indices.length ∧
          c < env.nObs ∧ d < env.nCond) := by tauto
      rw [if_neg hne]
      simp only [paramEntry, if_neg hb]
      cases hget : env.reaction_indices[b]? with
      | none => simp
      | some r =>
        by_cases ha : a = i
        · simp [ha]
        · simp [ha]

/-- Pointwise value of the signaling-metric tensor: row `a` is determined by
the a-th parameter set alone (baseline at the extra slot, the b-th perturbed
run at slot b), everything never written stays NaN. -/
theorem signalingMetric_apply (env : SweepEnv) (a b c d : ℕ) :
    signalingMetric env a b c d =
      (env.n_file[a]?).elim F.nan
        (fun p => (paramEntry env p b c d).getD F.nan) := by
  unfold signalingMetric
  have := foldl_enumFrom_char (fun t ip => sweepParamset env t ip.1 ip.2)
    (fun p => paramEntry env p b c d) a b c d a
    (fun t0 j p => sweepParamset_apply env t0 j p a b c d)
    env.n_file 0 (fun _ _ _ _ => F.nan)
  rw [show env.n_file.enum = env.n_file.enumFrom 0 from rfl, this]
  simp [enumTarget]

/-! ### Dictionary lemmas -/

theorem dictLookup_insert (d : List (ℕ × ℚ)) (k : ℕ) (v : ℚ) (q : ℕ) :
    dictLookup (dictInsert d k v) q =
      if q = k then some v else dictLookup d q := by
  induction d with
  | nil =>
    simp only [dictInsert, dictLookup]
    by_cases hq : q = k
    · subst hq; simp
    · rw [if_neg (fun h => hq h.symm), if_neg hq]
  | cons hd rest ih =>
    obtain ⟨k0, v0⟩ := hd
    simp only [dictInsert]
    by_cases h0 : k0 = k
    · rw [if_pos h0]
      subst h0
      simp only [dictLookup]
      by_cases hq : q = k0
      · subst hq; simp
      · rw [if_neg (fun h => hq h.symm), if_neg hq,
          if_neg (fun h => hq h.symm)]
    · rw [if_neg h0]
      simp only [dictLookup]
      by_cases hq0 : k0 = q
      · rw [if_pos hq0, if_pos hq0]
        subst hq0
        rw [if_neg h0]
      · rw [if_neg hq0, if_neg hq0, ih]

theorem dictLookup_fold_ones (ris : List ℕ) (d : List (ℕ × ℚ)) (q : ℕ) :
    dictLookup (ris.foldl (fun d0 idx => dictInsert d0 idx 1) d) q =
      if q ∈ ris then some 1 else dictLookup d q := by
  induction ris generalizing d with
  | nil => simp
  | cons r rs ih =>
    simp only [List.foldl_cons]
    rw [ih]
    by_cases hq : q ∈ rs
    · simp [hq]
    · rw [if_neg hq, dictLookup_insert]
      by_cases hqr : q = r
      · subst hqr; simp
      · simp [hqr, hq]

/-! ### Max-fold and row-processing lemmas -/

theorem mem_le_foldl_max (qs : List ℚ) :
    ∀ (q x : ℚ), x ∈ q :: qs → x ≤ qs.foldl max q := by
  induction qs with
  | nil =>
    intro q x hx
    rw [List.mem_singleton] at hx
    subst hx
    simp
  | cons y ys ih =>
    intro q x hx
    simp only [List.foldl_cons]
    rcases List.mem_cons.mp hx with h1 | h2
    · subst h1
      exact le_trans (le_max_left x y)
        (ih (max x y) (max x y) (List.mem_cons_self _ _))
    · rcases List.mem_cons.mp h2 with h3 | h4
      · subst h3
        exact le_trans (le_max_right q x)
          (ih (max q x) (max q x) (List.mem_cons_self _ _))
      · exact ih (max q y) x (List.mem_cons_of_mem _ h4)

/-- A NaN-free row whose nanmax-abs is exactly zero consists of zeros. -/
theorem nanmaxAbs_zero_all_zero (row : List F) (hnan : rowHasNaN row = false)
    (h0 : nanmaxAbs row = F.val 0) : ∀ x ∈ row, x = F.val 0 := by
  intro x hx
  cases x with
  | nan =>
    exfalso
    have : rowHasNaN row = true := List.any_eq_true.mpr ⟨F.nan, hx, rfl⟩
    rw [hnan] at this
    exact Bool.false_ne_true this
  | val q =>
    have hmem : |q| ∈ row.filterMap fun x => match x with
        | F.nan => none
        | F.val q => some |q| :=
      List.mem_filterMap.mpr ⟨F.val q, hx, rfl⟩
    unfold nanmaxAbs at h0
    cases hvals : row.filterMap fun x => match x with
        | F.nan => none
        | F.val q => some |q| with
    | nil => rw [hvals] at hmem; cases hmem
    | cons m ms =>
      rw [hvals] at h0 hmem
      simp only at h0
      have hmax : ms.foldl max m = 0 := by
        have := h0
        injection this
      have hle : |q| ≤ 0 := by
        have := mem_le_foldl_max ms m |q| hmem
        rw [hmax] at this
        exact this
      have : q = 0 := abs_nonpos_iff.mp hle
      rw [this]

theorem F_div_one (x : F) : F.div x (F.val 1) = x := by
  cases x with
  | nan => rfl
  | val a => simp [F.div]

/-- With `normalize=False` the in-place update leaves a NaN-free row
unchanged (rows with zero max-abs are all-zero already, others are divided
by 1). -/
theorem processRow_false_id (row : List F) (hnan : rowHasNaN row = false) :
    processRow false row = row := by
  unfold processRow
  by_cases h0 : nanmaxAbs row = F.val 0
  · rw [if_pos h0]
    have hall := nanmaxAbs_zero_all_zero row hnan h0
    symm
    rw [List.eq_replicate_iff]
    exact ⟨rfl, hall⟩
  · rw [if_neg h0]
    simp only [Bool.false_eq_true, if_false]
    calc row.map (fun x => F.div x (F.val 1)) = row.map id := by
          exact List.map_congr_left (fun x _ => F_div_one x)
      _ = row := List.map_id row

/-- The return value of `_remove_nan`: the NaN-free rows, in order, each as
mutated in place. -/
theorem remove_nan_eq_filter_map (m : List (List F)) (normalize : Bool) :
    remove_nan m normalize =
      (m.filter (fun row => !rowHasNaN row)).map (processRow normalize) := by
  unfold remove_nan remove_nan_run
  induction m with
  | nil => rfl
  | cons row rest ih =>
    by_cases h : rowHasNaN row
    · simp only [List.filterMap_cons, List.filter_cons, h]
      simpa [h] using ih
    · simp only [List.filterMap_cons, List.filter_cons,
        Bool.eq_false_iff.mpr h]
      simp only [Bool.not_false] at ih ⊢
      simp [h, ih]

/-! ### Concrete environments for witnesses -/

/-- A small concrete sweep environment: one parameter set (number 42), two
reactions, one observable, one condition; every simulation succeeds, the
unperturbed runs yield metric 10 and the perturbed runs metric 20. -/
def envW : SweepEnv where
  n_file := [42]
  reaction_indices := [3, 5]
  nObs := 1
  nCond := 1
  simResult := fun _ pm =>
    match pm with
    | none => some (fun _ _ => F.val 10)
    | some _ => some (fun _ _ => F.val 20)

/-- A sweep environment whose only parameter set fails every simulation. -/
def envF : SweepEnv where
  n_file := [7]
  reaction_indices := [3, 5]
  nObs := 1
  nCond := 1
  simResult := fun _ _ => none

/-- A concrete coefficient tensor: a single parameter-set row of two
reactions at observable 0, condition 0, with a NaN in the second slot. -/
def tEx : Tensor4 := fun a b c d =>
  if a = 0 ∧ b = 1 ∧ c = 0 ∧ d = 0 then F.nan else F.val 0

/-! ### Claims -/

/-- C2: for every parameter set and every reaction `r` in
`reaction_indices`, the perturbation dict passed to the simulator for the
perturbed run of `r` maps every index of `reaction_indices` to the neutral
factor 1 except `r` itself, mapped to the fixed ratio 1.01, and holds no
other key; and the map used at slot `j` of any parameter-set row is the one
freshly built from `(reaction_indices, r_j)` alone — never a structure
carried over from a previous iteration. -/
theorem C2_perturbation_map (env : SweepEnv) (r : ℕ)
    (hr : r ∈ env.reaction_indices) :
    (∀ idx ∈ env.reaction_indices,
      dictLookup (buildPerturbation env.reaction_indices r) idx =
        some (if idx = r then rate else 1))
    ∧ (∀ idx, idx ∉ env.reaction_indices →
      dictLookup (buildPerturbation env.reaction_indices r) idx = none)
    ∧ (∀ a p j rj k l, env.n_file[a]? = some p →
        env.reaction_indices[j]? = some rj →
        signalingMetric env a j k l = (cellWrite env p rj k l).getD F.nan) := by
  refine ⟨?_, ?_, ?_⟩
  · intro idx hidx
    unfold buildPerturbation
    rw [dictLookup_insert]
    by_cases hir : idx = r
    · subst hir; simp
    · rw [if_neg hir, dictLookup_fold_ones, if_pos hidx, if_neg hir]
  · intro idx hidx
    have hir : idx ≠ r := fun h => hidx (h ▸ hr)
    unfold buildPerturbation
    rw [dictLookup_insert, if_neg hir, dictLookup_fold_ones, if_neg hidx]
    rfl
  · intro a p j rj k l hp hj
    rw [signalingMetric_apply, hp]
    have hlt : j < env.reaction_indices.length := by
      by_contra hge
      push_neg at hge
      rw [List.getElem?_eq_none hge] at hj
      cases hj
    simp only [Option.elim]
    unfold paramEntry
    rw [if_neg (by omega), hj]

/-- C2 witness: the concrete map for reaction 5 among reactions [3, 5], and
the concrete perturbed cell of `envW`. -/
theorem C2_perturbation_map_witness :
    dictLookup (buildPerturbation envW.reaction_indices 5) 3 = some 1
    ∧ dictLookup (buildPerturbation envW.reaction_indices 5) 5 = some rate
    ∧ dictLookup (buildPerturbation envW.reaction_indices 5) 4 = none
    ∧ signalingMetric envW 0 1 0 0 = F.val 20 := by
  have h := C2_perturbation_map envW 5 (by decide)
  refine ⟨?_, ?_, ?_, ?_⟩
  · have := h.1 3 (by decide)
    simpa using this
  · have := h.1 5 (by decide)
    simpa using this
  · exact h.2.1 4 (by decide)
  · have := h.2.2 0 42 1 5 0 0 (by rfl) (by rfl)
    rw [this]
    decide

/-- C6: `_remove_nan` returns exactly the rows containing no NaN, in their
original relative order — with `normalize=False` their values are unchanged,
and for any `normalize` flag the result is the NaN-free rows each as
processed in place; in particular the 4-by-3 matrix whose row 2 contains a
NaN yields the 3-by-3 matrix of the remaining rows. -/
theorem C6_remove_nan_rows :
    (∀ m : List (List F),
      remove_nan m false = m.filter (fun row => !rowHasNaN row))
    ∧ (∀ (m : List (List F)) (normalize : Bool),
      remove_nan m normalize =
        (m.filter (fun row => !rowHasNaN row)).map (processRow normalize))
    ∧ remove_nan
        [[F.val 1, F.val 2, F.val 3], [F.val 4, F.val 5, F.val 6],
         [F.val 7, F.nan, F.val 9], [F.val 10, F.val 11, F.val 12]] false =
      [[F.val 1, F.val 2, F.val 3], [F.val 4, F.val 5, F.val 6],
       [F.val 10, F.val 11, F.val 12]] := by
  have hgen : ∀ m : List (List F),
      remove_nan m false = m.filter (fun row => !rowHasNaN row) := by
    intro m
    rw [remove_nan_eq_filter_map]
    calc (m.filter (fun row => !rowHasNaN row)).map (processRow false)
        = (m.filter (fun row => !rowHasNaN row)).map id := by
          refine List.map_congr_left ?_
          intro row hrow
          have hmem := List.mem_filter.mp hrow
          exact processRow_false_id row (by simpa using hmem.2)
      _ = m.filter (fun row => !rowHasNaN row) := List.map_id _
  refine ⟨hgen, remove_nan_eq_filter_map, ?_⟩
  rw [hgen]
  decide

/-- C7: under `normalize=True` every surviving row with nonzero max-abs is
divided elementwise by its max absolute value (so [2, -4, 1] becomes
[0.5, -1, 0.25]); a surviving row with max-abs exactly zero is never divided
and passes through as all zeros; under `normalize=False` surviving rows keep
their values. -/
theorem C7_normalization :
    remove_nan [[F.val 2, F.val (-4), F.val 1]] true =
      [[F.val (1/2), F.val (-1), F.val (1/4)]]
    ∧ (∀ row : List F, rowHasNaN row = false → nanmaxAbs row ≠ F.val 0 →
        processRow true row = row.map (fun x => F.div x (nanmaxAbs row)))
    ∧ (∀ row : List F, rowHasNaN row = false → nanmaxAbs row = F.val 0 →
        processRow true row = row ∧ ∀ x ∈ row, x = F.val 0)
    ∧ (∀ row : List F, rowHasNaN row = false →
        processRow false row = row) := by
  refine ⟨?_, ?_, ?_, ?_⟩
  · rw [remove_nan_eq_filter_map]
    have h4 : nanmaxAbs [F.val 2, F.val (-4), F.val 1] = F.val 4 := by
      simp only [nanmaxAbs, List.filterMap]
      norm_num [List.foldl, max_def]
    simp [processRow, h4, F.div, rowHasNaN, F.isNaN]
    norm_num
  · intro row hnan h0
    unfold processRow
    rw [if_neg h0]
    simp
  · intro row hnan h0
    have hall := nanmaxAbs_zero_all_zero row hnan h0
    constructor
    · unfold processRow
      rw [if_pos h0]
      symm
      rw [List.eq_replicate_iff]
      exact ⟨rfl, hall⟩
    · exact hall
  · exact processRow_false_id

/-- C7 witness: concrete rows exercising the nonzero-max, zero-max and
unnormalized branches. -/
theorem C7_normalization_witness :
    processRow true [F.val 0, F.val 3] = [F.val 0, F.val 1]
    ∧ processRow true [F.val 0, F.val 0] = [F.val 0, F.val 0]
    ∧ processRow false [F.val 5, F.val (-2)] = [F.val 5, F.val (-2)] := by
  have h3 : nanmaxAbs [F.val 0, F.val 3] = F.val 3 := by
    simp only [nanmaxAbs, List.filterMap]
    norm_num [List.foldl, max_def]
  refine ⟨?_, ?_, ?_⟩
  · have hc := C7_normalization.2.1 [F.val 0, F.val 3] (by decide)
      (by rw [h3]; simp)
    rw [hc, h3]
    simp [F.div]
  · have hc := C7_normalization.2.2.1 [F.val 0, F.val 0] (by decide) (by decide)
    rw [hc.1]
  · exact C7_normalization.2.2.2 [F.val 5, F.val (-2)] (by decide)

theorem paramEntry_base (env : SweepEnv) (p c d : ℕ) :
    paramEntry env p env.reaction_indices.length c d = baseWrite env p c d := by
  simp [paramEntry]

theorem paramEntry_slot (env : SweepEnv) (p j r c d : ℕ)
    (hj : env.reaction_indices[j]? = some r)
    (hne : j ≠ env.reaction_indices.length) :
    paramEntry env p j c d = cellWrite env p r c d := by
  simp [paramEntry, hj, hne]

theorem getElem?_some_lt {α : Type} {xs : List α} {j : ℕ} {r : α}
    (hj : xs[j]? = some r) : j < xs.length := by
  by_contra hge
  push_neg at hge
  rw [List.getElem?_eq_none hge] at hj
  cases hj

/-- C3: for every parameter set, the last slot of the reaction axis holds
exactly the outcome of the single unperturbed simulation (its extracted
metrics on success, NaN on failure), and slot `j` holds exactly the outcome
of the perturbed run for the j-th reaction. -/
theorem C3_baseline_slot (env : SweepEnv) (i p : ℕ)
    (hp : env.n_file[i]? = some p) (k l : ℕ) :
    (signalingMetric env i env.reaction_indices.length k l =
      match env.simResult p none with
      | some vals => if k < env.nObs ∧ l < env.nCond then vals k l else F.nan
      | none => F.nan)
    ∧ (∀ j r, env.reaction_indices[j]? = some r →
        signalingMetric env i j k l =
          match env.simResult p
              (some (buildPerturbation env.reaction_indices r)) with
          | some vals =>
            if k < env.nObs ∧ l < env.nCond then vals k l else F.nan
          | none => F.nan) := by
  constructor
  · rw [signalingMetric_apply, hp]
    simp only [Option.elim]
    rw [paramEntry_base]
    cases hb : env.simResult p none with
    | none => simp [baseWrite, hb]
    | some vals =>
      by_cases hkl : k < env.nObs ∧ l < env.nCond
      · simp [baseWrite, hb, hkl]
      · simp [baseWrite, hb, hkl]
  · intro j r hj
    rw [signalingMetric_apply, hp]
    have hlt : j < env.reaction_indices.length := getElem?_some_lt hj
    simp only [Option.elim]
    rw [paramEntry_slot env p j r k l hj (by omega)]
    cases hs : env.simResult p
        (some (buildPerturbation env.reaction_indices r)) with
    | none => simp [cellWrite, hs]
    | some vals =>
      by_cases hkl : k < env.nObs ∧ l < env.nCond
      · simp [cellWrite, hs, hkl]
      · simp [cellWrite, hs, hkl]

/-- C3 witness: in `envW` the baseline slot (index 2) holds the unperturbed
metric 10 and slot 0 holds the perturbed metric 20. -/
theorem C3_baseline_slot_witness :
    signalingMetric envW 0 2 0 0 = F.val 10
    ∧ signalingMetric envW 0 0 0 0 = F.val 20 := by
  have h := C3_baseline_slot envW 0 42 rfl 0 0
  constructor
  · show signalingMetric envW 0 envW.reaction_indices.length 0 0 = F.val 10
    rw [h.1]
    decide
  · have h2 := h.2 0 3 rfl
    rw [h2]
    decide

/-- C4: the metric tensor starts all-NaN and a cell is written only by a
successful in-range simulation, so failed (or absent) simulations leave NaN,
cells outside the declared shape stay NaN, and a success is recorded even
when other simulations of the sweep fail. -/
theorem C4_failure_keeps_nan :
    (∀ (env : SweepEnv) (i j k l : ℕ), env.n_file[i]? = none →
      signalingMetric env i j k l = F.nan)
    ∧ (∀ (env : SweepEnv) (i j k l p : ℕ), env.n_file[i]? = some p →
        ((env.reaction_indices.length < j →
            signalingMetric env i j k l = F.nan)
         ∧ (env.nObs ≤ k ∨ env.nCond ≤ l →
            signalingMetric env i j k l = F.nan)
         ∧ (∀ r, env.reaction_indices[j]? = some r →
            env.simResult p
              (some (buildPerturbation env.reaction_indices r)) = none →
            signalingMetric env i j k l = F.nan)
         ∧ (j = env.reaction_indices.length → env.simResult p none = none →
            signalingMetric env i j k l = F.nan)
         ∧ (∀ r vals, env.reaction_indices[j]? = some r →
            env.simResult p
              (some (buildPerturbation env.reaction_indices r)) = some vals →
            k < env.nObs → l < env.nCond →
            signalingMetric env i j k l = vals k l))) := by
  constructor
  · intro env i j k l h
    rw [signalingMetric_apply, h]
    rfl
  · intro env i j k l p hp
    refine ⟨?_, ?_, ?_, ?_, ?_⟩
    · intro hgt
      rw [signalingMetric_apply, hp]
      simp only [Option.elim]
      unfold paramEntry
      rw [if_neg (show j ≠ env.reaction_indices.length by omega),
        List.getElem?_eq_none (show env.reaction_indices.length ≤ j by omega)]
      rfl
    · intro hout
      rw [signalingMetric_apply, hp]
      simp only [Option.elim]
      have hkl : ¬ (k < env.nObs ∧ l < env.nCond) := by
        rcases hout with h1 | h1
        · exact fun h2 => absurd h2.1 (by omega)
        · exact fun h2 => absurd h2.2 (by omega)
      by_cases hb : j = env.reaction_indices.length
      · subst hb
        rw [paramEntry_base]
        cases hbase : env.simResult p none with
        | none => simp [baseWrite, hbase]
        | some vals => simp [baseWrite, hbase, hkl]
      · cases hr : env.reaction_indices[j]? with
        | none => simp [paramEntry, hb, hr]
        | some r =>
          rw [paramEntry_slot env p j r k l hr hb]
          cases hs : env.simResult p
              (some (buildPerturbation env.reaction_indices r)) with
          | none => simp [cellWrite, hs]
          | some vals => simp [cellWrite, hs, hkl]
    · intro r hr hfail
      rw [signalingMetric_apply, hp]
      have hlt : j < env.reaction_indices.length := getElem?_some_lt hr
      simp only [Option.elim]
      rw [paramEntry_slot env p j r k l hr (by omega)]
      simp [cellWrite, hfail]
    · intro hj hfail
      subst hj
      rw [signalingMetric_apply, hp]
      simp only [Option.elim]
      rw [paramEntry_base]
      simp [baseWrite, hfail]
    · intro r vals hr hs hk hl
      rw [signalingMetric_apply, hp]
      have hlt : j < env.reaction_indices.length := getElem?_some_lt hr
      simp only [Option.elim]
      rw [paramEntry_slot env p j r k l hr (by omega)]
      simp [cellWrite, hs, hk, hl]

/-- C4 witness: `envF` (every simulation fails) leaves NaN everywhere in
shape; `envW` rows outside the shape stay NaN while its in-shape successes
are written. -/
theorem C4_failure_keeps_nan_witness :
    signalingMetric envF 0 0 0 0 = F.nan
    ∧ signalingMetric envF 0 2 0 0 = F.nan
    ∧ signalingMetric envW 5 0 0 0 = F.nan
    ∧ signalingMetric envW 0 0 1 0 = F.nan
    ∧ signalingMetric envW 0 0 0 0 = F.val 20 := by
  refine ⟨?_, ?_, ?_, ?_, ?_⟩
  · exact (C4_failure_keeps_nan.2 envF 0 0 0 0 7 rfl).2.2.1 3 rfl rfl
  · exact (C4_failure_keeps_nan.2 envF 0 2 0 0 7 rfl).2.2.2.1 rfl rfl
  · exact C4_failure_keeps_nan.1 envW 5 0 0 0 rfl
  · exact (C4_failure_keeps_nan.2 envW 0 0 1 0 42 rfl).2.1
      (Or.inl (by decide))
  · exact (C4_failure_keeps_nan.2 envW 0 0 0 0 42 rfl).2.2.2.2 3
      (fun _ _ => F.val 20) rfl rfl (by decide) (by decide)

/-- C1: piecewise definition of the sensitivity coefficient from the metric
tensor — the log-log formula when both metrics are finite with nonzero
baseline, NaN when either metric is NaN, 0 for the 0/0 case, NaN for a zero
baseline with nonzero perturbed metric. -/
theorem C1_log_log_coefficient (ln : ℚ → ℚ) (env : SweepEnv) (i j k l : ℕ)
    (hi : i < env.n_file.length) (hj : j < env.reaction_indices.length)
    (hk : k < env.nObs) (hl : l < env.nCond) :
    (∀ b p0, signalingMetric env i env.reaction_indices.length k l = F.val b →
      signalingMetric env i j k l = F.val p0 → b ≠ 0 →
      calc_sensitivity_coefficients ln env i j k l =
        F.val (ln (p0 / b) / ln rate))
    ∧ ((signalingMetric env i env.reaction_indices.length k l = F.nan ∨
        signalingMetric env i j k l = F.nan) →
      calc_sensitivity_coefficients ln env i j k l = F.nan)
    ∧ (signalingMetric env i env.reaction_indices.length k l = F.val 0 →
      signalingMetric env i j k l = F.val 0 →
      calc_sensitivity_coefficients ln env i j k l = F.val 0)
    ∧ (∀ p0, signalingMetric env i env.reaction_indices.length k l = F.val 0 →
      signalingMetric env i j k l = F.val p0 → p0 ≠ 0 →
      calc_sensitivity_coefficients ln env i j k l = F.nan) := by
  have hrw : calc_sensitivity_coefficients ln env i j k l =
      scCell ln rate (signalingMetric env i env.reaction_indices.length k l)
        (signalingMetric env i j k l) := by
    unfold calc_sensitivity_coefficients dlnyi_dlnxj
    rw [if_pos ⟨hi, hj, hk, hl⟩]
  refine ⟨?_, ?_, ?_, ?_⟩
  · intro b p0 hb hp0 hb0
    rw [hrw, hb, hp0]
    simp only [scCell]
    rw [if_neg (fun h => hb0 h.1), if_neg hb0]
  · intro h
    rcases h with hb | hp0
    · rw [hrw, hb]
      rfl
    · rw [hrw, hp0]
      rcases hgen : signalingMetric env i env.reaction_indices.length k l
        with _ | q
      · rfl
      · rfl
  · intro hb hp0
    rw [hrw, hb, hp0]
    simp [scCell]
  · intro p0 hb hp0 hne
    rw [hrw, hb, hp0]
    simp only [scCell]
    rw [if_neg (fun h => hne h.2)]
    simp

/-- C1 witness: in `envW` (baseline metric 10, perturbed metric 20) with
`ln` instantiated to the identity, the coefficient is (20/10)/rate. -/
theorem C1_log_log_coefficient_witness :
    calc_sensitivity_coefficients (fun q => q) envW 0 0 0 0 =
      F.val (2 / rate) := by
  have h := (C1_log_log_coefficient (fun q => q) envW 0 0 0 0
    (by decide) (by decide) (by decide) (by decide)).1 10 20
    (by decide) (by decide) (by norm_num)
  rw [h]
  congr 1
  norm_num

/-- C5: `_load_sc` called twice with the same (model, metric) key runs the
sensitivity-coefficient computation at most once in total, and the second
call returns the very tensor of the first call — NaN cells and finite cells
alike (the persisted artifact round-trips exactly). -/
theorem C5_cache_idempotent (model_path metric : String) (ln : ℚ → ℚ)
    (env : SweepEnv) (disk : String → Option Tensor4) :
    (load_sc model_path metric ln env disk).2.2 +
      (load_sc model_path metric ln env
        (load_sc model_path metric ln env disk).2.1).2.2 ≤ 1
    ∧ (load_sc model_path metric ln env
        (load_sc model_path metric ln env disk).2.1).1 =
      (load_sc model_path metric ln env disk).1
    ∧ ∀ i j k l,
        (load_sc model_path metric ln env
          (load_sc model_path metric ln env disk).2.1).1 i j k l =
        (load_sc model_path metric ln env disk).1 i j k l := by
  simp only [load_sc]
  cases hd : disk (model_path ++ "/sensitivity_coefficients/reaction/" ++
      metric ++ "/sc.npy") with
  | some t => simp [hd]
  | none => simp [hd]

/-- C8: the summary over the cleaned matrix is the arithmetic mean along
the parameter-set axis together with the sample standard deviation with
divisor n-1; when exactly one row survives, the stdev vector is all zeros
(where `np.std(ddof=1)` itself would give the NaN of 0/0). -/
theorem C8_mean_and_sample_stdev (sqrtQ : ℚ → ℚ) (rows : List (List ℚ))
    (c : ℕ) :
    ((summarize sqrtQ rows).1 c =
      ((rows.map (fun r => r.getD c 0)).sum) / (rows.length : ℚ))
    ∧ (rows.length = 1 →
        (summarize sqrtQ rows).2 c = F.val 0 ∧
        np_std_axis0 sqrtQ 1 rows c = F.nan)
    ∧ (2 ≤ rows.length →
        (summarize sqrtQ rows).2 c =
          F.val (sqrtQ (((rows.map (fun r =>
            (r.getD c 0 - np_mean_axis0 rows c) ^ 2)).sum) /
            ((rows.length : ℚ) - 1)))) := by
  refine ⟨rfl, ?_, ?_⟩
  · intro h1
    constructor
    · simp [summarize, h1]
    · simp [np_std_axis0, h1]
  · intro h2
    have hne : rows.length ≠ 1 := by omega
    have hQ : ((rows.length : ℚ) - 1) ≠ 0 := by
      have h2Q : (2 : ℚ) ≤ (rows.length : ℚ) := by exact_mod_cast h2
      intro heq
      linarith
    simp only [summarize, if_neg hne, np_std_axis0, Nat.cast_one]
    rw [if_neg hQ]

/-- C8 witness: rows [[1], [3]] give mean 2 and sample stdev 2 (with the
abstract square root instantiated to the identity, the variance is 2);
the single row [[5]] gives stdev 0 while raw `np.std(ddof=1)` gives NaN. -/
theorem C8_mean_and_sample_stdev_witness :
    (summarize (fun q => q) [[1], [3]]).1 0 = 2
    ∧ (summarize (fun q => q) [[1], [3]]).2 0 = F.val 2
    ∧ (summarize (fun q => q) [[5]]).2 0 = F.val 0
    ∧ np_std_axis0 (fun q => q) 1 [[5]] 0 = F.nan := by
  refine ⟨?_, ?_, ?_, ?_⟩
  · have h := (C8_mean_and_sample_stdev (fun q => q) [[1], [3]] 0).1
    rw [h]
    norm_num
  · have h := (C8_mean_and_sample_stdev (fun q => q) [[1], [3]] 0).2.2
      (by norm_num)
    rw [h]
    congr 1
    simp [np_mean_axis0]
    norm_num
  · exact ((C8_mean_and_sample_stdev (fun q => q) [[5]] 0).2.1 rfl).1
  · exact ((C8_mean_and_sample_stdev (fun q => q) [[5]] 0).2.1 rfl).2

/-- C9 counterexample: the grouping [[1, 2], [3, 4]] is an ordered partition
(no index repeats), yet `np.sum(..., axis=0)` on its rectangular nested list
sums the buckets elementwise to [4, 6], so the sequence handed to the sweep
does not enumerate the grouping: index 1 is missing. -/
theorem C9_equal_lengths_counterexample :
    (([[1, 2], [3, 4]] : List (List ℕ)).flatten.Nodup
      ∧ (1 : ℕ) ∈ ([[1, 2], [3, 4]] : List (List ℕ)).flatten)
    ∧ analyze_reaction_indices [[1, 2], [3, 4]] = [4, 6]
    ∧ (1 : ℕ) ∉ analyze_reaction_indices [[1, 2], [3, 4]] := by
  refine ⟨by decide, by decide, by decide⟩

/-- C9 amended: whenever the buckets of the grouping do not all share one
length (NumPy then folds list concatenation instead of summing a 2-D
array), `analyze` hands the sweep the concatenation of the buckets in
grouping order — every index of the grouping, exactly once when the grouping
is a partition. -/
theorem C9_ragged_grouping_concatenates (gs : List (List ℕ))
    (h : allSameLength gs = false) :
    analyze_reaction_indices gs = gs.flatten
    ∧ (∀ x : ℕ, x ∈ analyze_reaction_indices gs ↔ ∃ g ∈ gs, x ∈ g)
    ∧ (gs.flatten.Nodup → (analyze_reaction_indices gs).Nodup) := by
  have h1 : analyze_reaction_indices gs = gs.flatten := by
    unfold analyze_reaction_indices np_sum_axis0
    rw [if_neg (by simp [h])]
  refine ⟨h1, ?_, ?_⟩
  · intro x
    rw [h1, List.mem_flatten]
  · intro hnd
    rw [h1]
    exact hnd

/-- C9 witness: the ragged grouping [[1], [2, 3]] is handed over as
[1, 2, 3]. -/
theorem C9_ragged_grouping_concatenates_witness :
    analyze_reaction_indices [[1], [2, 3]] = [1, 2, 3] := by
  have h := (C9_ragged_grouping_concatenates [[1], [2, 3]] (by decide)).1
  rw [h]
  rfl

/-- C10: `_remove_nan` mutates its argument in place — after the call, row i
of the passed matrix holds `processRow` of the old row i (rows of zero
max-abs overwritten with zeros, divided rows under `normalize=True`), NaN
rows are dropped only from the returned copy — and since
`_heatmap_sensitivity` passes the view `sensitivity_coefficients[:, :, k, l]`,
the cleaning writes back into the coefficient tensor. -/
theorem C10_inplace_view_mutation :
    (∀ (m : List (List F)) (normalize : Bool),
        (remove_nan_run m normalize).1.length = m.length
        ∧ ∀ i : ℕ, ((remove_nan_run m normalize).1)[i]? =
            (m[i]?).map (processRow normalize))
    ∧ ((remove_nan_run [[F.val 0, F.nan]] false).1 = [[F.val 0, F.val 0]]
        ∧ (remove_nan_run [[F.val 0, F.nan]] false).1 ≠ [[F.val 0, F.nan]]
        ∧ (remove_nan_run [[F.val 0, F.nan]] false).2 = [])
    ∧ (∀ row : List F, nanmaxAbs row = F.val 0 → ∀ normalize,
        processRow normalize row = List.replicate row.length (F.val 0))
    ∧ (∀ row : List F, rowHasNaN row = false → nanmaxAbs row ≠ F.val 0 →
        processRow true row = row.map (fun x => F.div x (nanmaxAbs row)))
    ∧ (∀ (t : Tensor4) (nP nR k l a b : ℕ), a < nP → b < nR →
        (heatmapCleanStep t nP nR k l).1 a b k l =
          (processRow false
            ((List.range nR).map (fun j => t a j k l))).getD b (t a b k l))
    ∧ ((heatmapCleanStep tEx 1 2 0 0).1 0 1 0 0 = F.val 0
        ∧ tEx 0 1 0 0 = F.nan) := by
  refine ⟨?_, ⟨by decide, by decide, by decide⟩, ?_, ?_, ?_,
    ⟨by decide, by decide⟩⟩
  · intro m normalize
    constructor
    · simp [remove_nan_run]
    · intro i
      simp [remove_nan_run]
  · intro row h0 normalize
    unfold processRow
    rw [if_pos h0]
  · intro row hnan h0
    unfold processRow
    rw [if_neg h0]
    simp
  · intro t nP nR k l a b ha hb
    simp only [heatmapCleanStep, writeSlice]
    rw [if_pos ⟨trivial, trivial⟩]
    have hmut : (remove_nan_run (slice2 t nP nR k l) false).1 =
        (List.range nP).map (fun i =>
          processRow false ((List.range nR).map (fun j => t i j k l))) := by
      simp [remove_nan_run, slice2, List.map_map]
    rw [hmut]
    have hget : (((List.range nP).map (fun i =>
        processRow false ((List.range nR).map (fun j => t i j k l)))).getD
          a []) =
        processRow false ((List.range nR).map (fun j => t a j k l)) := by
      rw [List.getD_eq_getElem?_getD, List.getElem?_map,
        List.getElem?_range ha]
      rfl
    rw [hget]

/-- C10 witness: the mutated matrix object returned in the state has its
row 0 processed in place, and the cleaned heatmap step writes the processed
value into the tensor. -/
theorem C10_inplace_view_mutation_witness :
    ((remove_nan_run [[F.val 0, F.nan]] false).1)[0]? =
      some (processRow false [F.val 0, F.nan])
    ∧ (heatmapCleanStep tEx 1 2 0 0).1 0 0 0 0 = F.val 0 := by
  constructor
  · have h := (C10_inplace_view_mutation.1 [[F.val 0, F.nan]] false).2 0
    simpa using h
  · have h := C10_inplace_view_mutation.2.2.2.2.1 tEx 1 2 0 0 0 0
      (by decide) (by decide)
    rw [h]
    decide

end Biomass
